import Mathlib

/-!
Formal model of the Studentised maximum range routines

This file is a shallow embedding, over exact rationals, of the C sources
rng_lp.c, smrng_lp.c and smrng_lq.c of the studentised-maximum-range
repository.  Machine doubles are modelled as exact rationals; the libm
transcendentals (exp, log, sqrt, pow with a non-integral exponent) and the
external normal-probability routine nrml_p (its source file nrml_p.c is not
part of the repository) are gathered in an abstract interface Prim, so that
every definition below reproduces the control flow and the rational
arithmetic of the C code exactly, with the transcendental calls left
uninterpreted.  pow with an exponent that is a cast integer (pow(x,(double)n))
is modelled as the monoid power x^n.  The out-of-bounds table reads that
chi2u/chi2l would perform for df outside [1,5] under their df<=5 guard are
modelled by Option: a read outside the table yields none, and smrng_lp
propagates it.  The quantile solver smrng_lq only knows smrng_lp through an
extern declaration, so it is modelled over an arbitrary evaluator F, with its
unbounded bracketing while-loop given fuel.
-/

/-- log(sqrt(pi)) constant of smrng_lp.c. -/
def LOGSQRTPI : ℚ := 0.572364942924700087071713675676529356

/-- Tail-region cutoff BORDER of rng_lp.c. -/
def BORDER : ℚ := 3.7

/-- 1/sqrt(2*pi) constant CNST0 of rng_lp.c. -/
def CNST0 : ℚ := 0.398942280401432677939946059934381868

/-- Probability noise floor YEPS of smrng_lq.c. -/
def YEPS : ℚ := 1.0e-12

/-- The 10 Gauss-Legendre nodes nd of rng_lp.c (20-node rule, symmetric pairs). -/
def rng_nd : List ℚ :=
  [0.993128599185094924786122388471320278,
   0.963971927277913791267666131197277222,
   0.912234428251325905867752441203298113,
   0.839116971822218823394529061701520685,
   0.746331906460150792614305070355641590,
   0.636053680726515025452836696226285937,
   0.510867001950827098004364050955250998,
   0.373706088715419560672548177024927237,
   0.227785851141645078080496195368574625,
   0.0765265211334973337546404093988382110]

/-- The 10 Gauss-Legendre weights wt of rng_lp.c. -/
def rng_wt : List ℚ :=
  [0.0176140071391521183118619623518528164,
   0.0406014298003869413310399522749321099,
   0.0626720483341090635695065351870416064,
   0.0832767415767047487247581432220462061,
   0.101930119817240435036750135480349876,
   0.118194531961518417312377377711382287,
   0.131688638449176626898494499748163135,
   0.142096109318382051329298325067164933,
   0.149172986472603746787828737001969437,
   0.152753387130725850698084331955097593]

/-- The 20 Gauss-Legendre nodes nd of smrng_lp.c (40-node rule, symmetric pairs). -/
def smr_nd : List ℚ :=
  [0.998237709710559200349622702420586492,
   0.990726238699457006453054352221372155,
   0.977259949983774262663370283712903807,
   0.957916819213791655804540999452759285,
   0.932812808278676533360852166845205716,
   0.902098806968874296728253330868493104,
   0.865959503212259503820781808354619964,
   0.824612230833311663196320230666098774,
   0.778305651426519387694971545506494848,
   0.727318255189927103280996451754930549,
   0.671956684614179548379354514961494110,
   0.612553889667980237952612450230694877,
   0.549467125095128202075931305529517970,
   0.483075801686178712908566574244823005,
   0.413779204371605001524879745803713683,
   0.341994090825758473007492481179194310,
   0.268152185007253681141184344808596183,
   0.192697580701371099715516852065149895,
   0.116084070675255208483451284408024114,
   0.0387724175060508219331934440246232947]

/-- The 20 Gauss-Legendre weights wt of smrng_lp.c. -/
def smr_wt : List ℚ :=
  [0.00452127709853319125847173287818533273,
   0.0104982845311528136147421710672796524,
   0.0164210583819078887128634848823639273,
   0.0222458491941669572615043241842085732,
   0.0279370069800234010984891575077210773,
   0.0334601952825478473926781830864108490,
   0.0387821679744720176399720312904461623,
   0.0438709081856732719916746860417154958,
   0.0486958076350722320614341604481463881,
   0.0532278469839368243549964797722605046,
   0.0574397690993915513666177309104259856,
   0.0613062424929289391665379964083985959,
   0.0648040134566010380745545295667527300,
   0.0679120458152339038256901082319239860,
   0.0706116473912867796954836308552868324,
   0.0728865823958040590605106834425178359,
   0.0747231690579682642001893362613246732,
   0.0761103619006262423715580759224948230,
   0.0770398181642479655883075342838102485,
   0.0775059479784248112637239629583263270]

/-- Symmetric Gauss-Legendre accumulation loop shared by rng_lp and smrng_lp:
the running sum of wt[i] * (g(cntr - wdth*nd[i]) + g(cntr + wdth*nd[i])). -/
def glsum (nds wts : List ℚ) (g : ℚ → ℚ) (cntr wdth : ℚ) : ℚ :=
  (List.zip nds wts).foldl
    (fun acc nw => acc + nw.2 * (g (cntr - wdth * nw.1) + g (cntr + wdth * nw.1))) 0

/-- Abstract interface for the libm transcendentals and the external normal
probability routine nrml_p (nrml_p.c is not part of the repository sources).
powr models pow with a non-integral literal exponent; nrml_p takes the mode
argument 0 = lower, 1 = upper, 2 = centre of nrml_p.c. -/
structure Prim where
  exp : ℚ → ℚ
  log : ℚ → ℚ
  sqrt : ℚ → ℚ
  powr : ℚ → ℚ → ℚ
  nrml_p : ℚ → ℕ → ℚ

/-- nrml_ip of rng_lp.c: normal probability of the interval (a, b), switching
the nrml_p mode by tail region at the cutoff BORDER. -/
def nrml_ip (P : Prim) (a b : ℚ) : ℚ :=
  if b ≤ a then 0
  else if BORDER < a then P.nrml_p a 1 - P.nrml_p b 1
  else if b < -BORDER then P.nrml_p b 0 - P.nrml_p a 0
  else P.nrml_p b 2 - P.nrml_p a 2

/-- ulim of rng_lp.c: adaptive upper integral limit for the Hartley formula,
with k capped at 1000. -/
def ulim (P : Prim) (r : ℚ) (k0 : ℤ) : ℚ :=
  let k : ℤ := if 1000 < k0 then 1000 else k0
  let ulim13 : ℚ := 1.403 * P.sqrt (P.log (k : ℚ) + 28.127)
  let w : ℚ := P.log (k : ℚ)
  let rmin : ℚ := P.exp (2.3641 - 4.669 / w - 9.499 / (w * w) - 13.293 / (w * w * w))
  if r ≤ rmin then 0
  else if k ≤ 10 then
    let d1 : ℚ := 0.02173 * P.log (8.7 / ((k : ℚ) - 1.3))
    let d2 : ℚ := 8.4 + 0.2 * (k : ℚ)
    ulim13 * min 1 (max 0 (d1 * (d2 - r)) + 0.199 + 0.134 * r - 0.00500 * r * r)
  else
    let rmin10 : ℚ := 0.07856
    let a1 : ℚ := if k < 30 then 8.889 * P.log ((k : ℚ) - 3) + 24.70 else 54.0
    let a2 : ℚ := if k < 30 then 0.06873 * P.log ((k : ℚ) - 7) + 0.9245 else 1.14
    let a3 : ℚ :=
      if k < 22 then -0.6031 * P.log ((k : ℚ) + 6) + 1.6877
      else if k ≤ 35 then -0.31 else 0.308 * P.log ((k : ℚ) - 5) - 1.3576
    let w2 : ℚ := a1 * P.powr ((r - rmin + rmin10) / (42 - rmin + rmin10)) a2 + a3
    let z : ℚ := if 9 < w2 then 1 else 0.199 + 0.134 * w2 - 0.00500 * w2 * w2
    ulim13 * z

/-- Integrand f of rng_lp.c: exp(-x^2/2) * nrml_ip(x-r, x)^(k-1). -/
def f_rng (P : Prim) (x r : ℚ) (k : ℤ) : ℚ :=
  P.exp (-(0.5) * x * x) * (nrml_ip P (x - r) x) ^ (k - 1).toNat

/-- rng_lp of rng_lp.c: lower probability of the range of k standard normal
variates, by the Hartley formula with 20-node Gauss-Legendre quadrature. -/
def rng_lp (P : Prim) (r : ℚ) (k : ℤ) : ℚ :=
  if r ≤ 0 then 0
  else if k = 2 then 2 * P.nrml_p (r / P.sqrt 2) 2
  else
    let xu : ℚ := ulim P r k
    let wdth : ℚ := 0.5 * (xu - 0.5 * r)
    let cntr : ℚ := 0.5 * (xu + 0.5 * r)
    let p : ℚ :=
      if 0.5 * r < xu then
        glsum rng_nd rng_wt (fun x => f_rng P x r k) cntr wdth * (2 * (k : ℚ) * wdth * CNST0)
      else 0
    p + (2 * P.nrml_p (0.5 * r) 2) ^ k.toNat

/-- Bounds-checked read of a fixed table at a C int index: an index outside
the table (in particular a negative one) is the out-of-bounds read the C code
would perform, modelled as none. -/
def tableGetI (l : List ℚ) (i : ℤ) : Option ℚ :=
  if 0 ≤ i then l[i.toNat]? else none

/-- Fixed table first[5] of chi2u in smrng_lp.c. -/
def chi2uFirst : List ℚ := [56.73, 61.26, 65.01, 68.38, 71.50]

/-- Fixed table first[5] of chi2l in smrng_lp.c. -/
def chi2lFirst : List ℚ := [3.926e-27, 1.0e-13, 3.281e-09, 6.324e-07, 1.546e-05]

/-- chi2u of smrng_lp.c: upper cutoff for chi^2(df) with upper tail about
0.5e-13; a table read for df <= 5, the Wilson-Hilferty approximation above. -/
def chi2u (P : Prim) (df : ℤ) : Option ℚ :=
  let ddf : ℚ := 2 / 9 / (df : ℚ)
  if df ≤ 5 then tableGetI chi2uFirst (df - 1)
  else
    let w : ℚ :=
      if df ≤ 20 then 7.391 - 3.050 / (df : ℚ) + 5.208 / ((df : ℚ) * (df : ℚ))
      else 7.441 - 5.209 / (df : ℚ) + 29.27 / ((df : ℚ) * (df : ℚ))
    some ((df : ℚ) * P.powr (w * P.sqrt ddf + (1 - ddf)) 3)

/-- chi2l of smrng_lp.c: lower cutoff for chi^2(df) with lower tail about
0.5e-13; a table read for df <= 5, a log approximation for df <= 20, the
Wilson-Hilferty approximation above. -/
def chi2l (P : Prim) (df : ℤ) : Option ℚ :=
  let ddf : ℚ := 2 / 9 / (df : ℚ)
  if df ≤ 5 then tableGetI chi2lFirst (df - 1)
  else if df ≤ 20 then
    let w : ℚ := -8.645 - 70.72 / (df : ℚ) + 77.47 / ((df : ℚ) * (df : ℚ))
    some ((df : ℚ) * P.exp (w / P.sqrt (0.5 * (df : ℚ)) - 1 / (df : ℚ)))
  else
    let w : ℚ := -7.451 + 10.07 / (df : ℚ) + 82.83 / ((df : ℚ) * (df : ℚ))
    some ((df : ℚ) * P.powr (w * P.sqrt ddf + (1 - ddf)) 3)

/-- rupper of smrng_lp.c: upper limit of the max range with upper tail about
0.5e-13, by the empirically fitted closed forms. -/
def rupper (P : Prim) (k nrng : ℤ) : ℚ :=
  let rn1 : ℚ := 0.42 * P.powr (P.log ((k : ℚ) - 0.5)) 0.9 + 10.465
  if nrng ≤ 1 then rn1
  else
    let rn100 : ℚ := 0.2866 * P.powr (P.log ((k : ℚ) - 0.9)) 1.05 + 11.451
    0.2273 * (rn100 - rn1) * P.powr (P.log (nrng : ℚ)) 0.97 + rn1

/-- rlower of smrng_lp.c: lower limit of the max range with lower tail about
0.5e-13, by the empirically fitted closed forms (the C locals x1, x100, x are
named lx1, lx100, lx here). -/
def rlower (P : Prim) (k nrng : ℤ) : ℚ :=
  if k ≤ 40 then
    let z1 : ℚ := -27.12 / P.powr (P.log ((k : ℚ) + 0.5)) 2.1 + 1.8800
    if nrng ≤ 1 then P.exp z1
    else
      let z100 : ℚ := -5.749 / P.powr (P.log (k : ℚ)) 0.12 + 6.4651
      let dk : ℚ := if k < 8 then 2.934 / ((k : ℚ) + 1.0) + 0.522 else 0.86 - 0.0015 * (k : ℚ)
      let bk : ℚ := if k < 8 then 7.88 / ((k : ℚ) + 2.0) + 0.112 else 16.875 / ((k : ℚ) + 10.0) - 0.0375
      let lx1 : ℚ := 1.0 / P.powr (P.log (1.0 + dk)) bk
      let lx100 : ℚ := 1.0 / P.powr (P.log (100.0 + dk)) bk
      let lx : ℚ := 1.0 / P.powr (P.log ((nrng : ℚ) + dk)) bk
      P.exp ((z100 - z1) / (lx100 - lx1) * (lx - lx1) + z1)
  else
    let z1 : ℚ := 449.4 * P.powr (P.log ((k : ℚ) + 10.0)) 0.012 - 455.6678
    if nrng ≤ 1 then z1
    else
      let z100 : ℚ := 3.149 * P.powr (P.log ((k : ℚ) + 1.0)) 0.48 - 1.2017
      let bk : ℚ :=
        if k ≤ 55 then -0.08478 * P.log (k : ℚ) + 0.5738
        else 0.03220 * P.log (k : ℚ) + 0.1050
      let lx1 : ℚ := P.powr (P.log 2.0) bk
      let lx100 : ℚ := P.powr (P.log 101.0) bk
      let lx : ℚ := P.powr (P.log ((nrng : ℚ) + 1.0)) bk
      (z100 - z1) / (lx100 - lx1) * (lx - lx1) + z1

/-- Summation loop of coef in smrng_lp.c: the sum of log(0.5*n) for
n = m, m-2, m-4, ... while n > 0, taken at m = df-2. -/
def coefSum (P : Prim) : ℕ → ℚ
  | 0 => 0
  | 1 => P.log (1 / 2)
  | n + 2 => P.log (((n : ℚ) + 2) / 2) + coefSum P n

/-- coef of smrng_lp.c: normalizing coefficient of the chi distribution,
2 * exp(df/2 * (log(df/2) - 1) - g) with g the log-gamma-free recurrence. -/
def coef (P : Prim) (df : ℤ) : ℚ :=
  let g : ℚ := (if df % 2 = 1 then LOGSQRTPI else 0) + coefSum P (df - 2).toNat
  2 * P.exp (0.5 * (df : ℚ) * (P.log (0.5 * (df : ℚ)) - 1) - g)

/-- Integrand f of smrng_lp.c: the chi density factor alone for isw = 0, and
the full integrand with the factor rng_lp(s*q, k)^nrng for isw = 1. -/
def f_chi (P : Prim) (s : ℚ) (k df nrng : ℤ) (q : ℚ) (isw : ℕ) : ℚ :=
  let y : ℚ := P.exp (((df : ℚ) - 1) * P.log s + 0.5 * (df : ℚ) * (1 - s * s))
  if isw = 0 then y else y * (rng_lp P (s * q) k) ^ nrng.toNat

/-- smrng_lp of smrng_lp.c: lower probability of the Studentised maximum
range.  The two iterations of the C for-loop over isw are written out: when
ruq < su the first pass (isw = 0, after sl has been moved to ruq) integrates
the chi density alone over [ruq, su] and the second pass (isw = 1, after the
bounds are swapped back) integrates the full integrand over [sll, ruq];
otherwise a single pass with isw = 1 integrates over [sl, su]. -/
def smrng_lp (P : Prim) (q : ℚ) (k df nrng : ℤ) : Option ℚ :=
  if q ≤ 0 then some 0
  else if df ≤ 0 then some ((rng_lp P q k) ^ nrng.toNat)
  else
    (chi2l P df).bind fun c2l =>
    (chi2u P df).bind fun c2u =>
    let sl : ℚ := P.sqrt (c2l / (df : ℚ))
    let su : ℚ := P.sqrt (c2u / (df : ℚ))
    let cnst : ℚ := coef P df
    let rlq : ℚ := rlower P k nrng / q
    if su ≤ rlq then some 0
    else
      let sl : ℚ := if sl < rlq then rlq else sl
      let ruq : ℚ := rupper P k nrng / q
      if ruq ≤ sl then some 1
      else if ruq < su then
        some (cnst *
          (0.5 * (su - ruq) *
             glsum smr_nd smr_wt (fun s => f_chi P s k df nrng q 0)
               (0.5 * (ruq + su)) (0.5 * (su - ruq)) +
           0.5 * (ruq - sl) *
             glsum smr_nd smr_wt (fun s => f_chi P s k df nrng q 1)
               (0.5 * (sl + ruq)) (0.5 * (ruq - sl))))
      else
        some (cnst *
          (0.5 * (su - sl) *
             glsum smr_nd smr_wt (fun s => f_chi P s k df nrng q 1)
               (0.5 * (sl + su)) (0.5 * (su - sl))))

/-- Search state of smrng_lq.c: the bracket (x1,y1), (x2,y2) and the
historical point (x3,y3) used for quadratic interpolation. -/
structure BrState where
  x1 : ℚ
  y1 : ℚ
  x2 : ℚ
  y2 : ℚ
  x3 : ℚ
  y3 : ℚ
deriving DecidableEq

/-- Quadratic-interpolation trial abscissa of smrng_lq.c (the a, b, x
computation of the even-iteration branch, before the out-of-bracket
fallback); msqrt models the libm sqrt call. -/
def interpX (msqrt : ℚ → ℚ) (p xeps : ℚ) (st : BrState) : ℚ :=
  let a : ℚ :=
    if |st.x1 - st.x3| < xeps ∨ |st.x2 - st.x3| < xeps then 0
    else ((st.y3 - st.y1) / (st.x3 - st.x1) - (st.y2 - st.y1) / (st.x2 - st.x1)) / (st.x3 - st.x2)
  let b : ℚ := (st.y2 - st.y1) / (st.x2 - st.x1) - a * (st.x2 - st.x1)
  if 0 < a then st.x1 + (-b + msqrt (b * b + 4 * a * (p - st.y1))) / (2 * a)
  else st.x1 + 2 * (p - st.y1) / (b + msqrt (b * b + 4 * a * (p - st.y1)))

/-- Trial abscissa of one refinement iteration of smrng_lq.c: bisection for
odd i or a probability span below YEPS, otherwise the quadratic interpolant
with bisection fallback when it leaves [x1, x2]. -/
def trialX (msqrt : ℚ → ℚ) (p xeps : ℚ) (i : ℕ) (st : BrState) : ℚ :=
  if i % 2 = 1 ∨ |st.y2 - st.y1| < YEPS then 0.5 * (st.x1 + st.x2)
  else if interpX msqrt p xeps st < st.x1 ∨ st.x2 < interpX msqrt p xeps st then
    0.5 * (st.x1 + st.x2)
  else interpX msqrt p xeps st

/-- Bracket update of smrng_lq.c: a trial with y >= p replaces (x2,y2) and
the old (x2,y2) becomes the historical point (x3,y3); otherwise the trial
replaces (x1,y1) and the old (x1,y1) becomes (x3,y3). -/
def updateBr (st : BrState) (x y p : ℚ) : BrState :=
  if p ≤ y then ⟨st.x1, st.y1, x, y, st.x2, st.y2⟩
  else ⟨x, y, st.x2, st.y2, st.x1, st.y1⟩

/-- One full refinement iteration (trial point, evaluation, bracket update)
of smrng_lq.c at iteration index i, for an evaluator F. -/
def stepSt (F msqrt : ℚ → ℚ) (p xeps : ℚ) (i : ℕ) (st : BrState) : BrState :=
  updateBr st (trialX msqrt p xeps i st) (F (trialX msqrt p xeps i st)) p

/-- State after m refinement iterations of smrng_lq.c starting at iteration
index i (ignoring the early-termination test, which does not change the
state of the iterations it lets run). -/
def iterSt (F msqrt : ℚ → ℚ) (p xeps : ℚ) : ℕ → ℕ → BrState → BrState
  | 0, _, st => st
  | m + 1, i, st => iterSt F msqrt p xeps m (i + 1) (stepSt F msqrt p xeps i st)

/-- Early-termination test of smrng_lq.c at iteration i: both the bracket
width and the trial evaluation error are below their tolerances. -/
def breakB (F msqrt : ℚ → ℚ) (p xeps peps : ℚ) (i : ℕ) (st : BrState) : Bool :=
  decide (|st.x2 - st.x1| < xeps) && decide (|F (trialX msqrt p xeps i st) - p| < peps)

/-- The early-termination test fails at every one of the next m refinement
iterations starting from iteration index i in state st. -/
def noBreakB (F msqrt : ℚ → ℚ) (p xeps peps : ℚ) : ℕ → ℕ → BrState → Bool
  | 0, _, _ => true
  | m + 1, i, st =>
    !breakB F msqrt p xeps peps i st &&
      noBreakB F msqrt p xeps peps m (i + 1) (stepSt F msqrt p xeps i st)

/-- Refinement loop of smrng_lq.c (for i = 1 to 200 in the C code, the
iteration budget is the fuel argument here): compute the trial point,
evaluate, return it with the running evaluation count if both tolerances
hold or the budget is exhausted, otherwise update the bracket and continue. -/
def refineAux (F msqrt : ℚ → ℚ) (p xeps peps : ℚ) : ℕ → ℕ → BrState → ℕ → ℚ × ℕ
  | 0, _, st, itr => (0.5 * (st.x1 + st.x2), itr)
  | fuel + 1, i, st, itr =>
    let x : ℚ := trialX msqrt p xeps i st
    let y : ℚ := F x
    if |st.x2 - st.x1| < xeps ∧ |y - p| < peps then (x, itr + 1)
    else if fuel = 0 then (x, itr + 1)
    else refineAux F msqrt p xeps peps fuel (i + 1) (updateBr st x y p) (itr + 1)

/-- Bracketing while-loop of smrng_lq.c, with fuel for the unbounded C loop:
while y2 < p, shift (x2,y2) into (x1,y1), double x2 and re-evaluate; on exit
seed the historical point (x3,y3) and report the evaluation count. -/
def bracketAux (F : ℚ → ℚ) (p : ℚ) : ℕ → ℚ → ℚ → ℚ → ℚ → ℕ → Option (BrState × ℕ)
  | 0, _, _, _, _, _ => none
  | fuel + 1, x1, y1, x2, y2, itr =>
    if y2 < p then bracketAux F p fuel x2 y2 (2 * x2) (F (2 * x2)) (itr + 1)
    else some (⟨x1, y1, x2, y2, x2, y2⟩, itr)

/-- smrng_lq of smrng_lq.c: lower quantile of the Studentised maximum range,
over an arbitrary probability evaluator F (the C file only declares
smrng_lp as extern), returning the quantile with the evaluation count. -/
def smrng_lq (F msqrt : ℚ → ℚ) (p xeps peps : ℚ) (fuel : ℕ) : Option (ℚ × ℕ) :=
  if p ≤ 0 then some (0, 0)
  else if 1 ≤ p then some (1.0e+99, 0)
  else
    (bracketAux F p fuel 0 0 2 (F 2) 1).map fun sn =>
      refineAux F msqrt p xeps peps 200 1 sn.1 sn.2

/-- Modelled from the spec: the NormalCDF contract of section 6 for the
missing collaborator nrml_p.c, with an abstract standard normal CDF Phi.
LOWER (mode 0) returns P(Z <= u), UPPER (mode 1) returns P(Z > u), and
CENTRAL (mode 2) returns P(Z <= u), exactly as section 6 states. -/
def nrml_p_spec (Phi : ℚ → ℚ) (u : ℚ) (mode : ℕ) : ℚ :=
  if mode = 1 then 1 - Phi u else Phi u

/-- Modelled from the spec (amended CENTRAL contract): as nrml_p_spec, but
CENTRAL (mode 2) returns the central probability P(0 < Z <= u), that is
Phi(u) - 1/2, which is the reading forced by the k = 2 closed form. -/
def nrml_p_centre (Phi : ℚ → ℚ) (u : ℚ) (mode : ℕ) : ℚ :=
  if mode = 1 then 1 - Phi u
  else if mode = 2 then Phi u - 1 / 2
  else Phi u

/-- Standard normal density in the model: CNST0 * exp(-x^2/2), with the
abstract exponential of the interface. -/
def normalPdf (P : Prim) (x : ℚ) : ℚ := CNST0 * P.exp (-(0.5) * x * x)

/-- Chi-density factor of the smrng_lp integrand, as the spec describes it:
s^(df-1) * exp(-df*s^2/2) up to the constant, written through the abstract
exponential exactly as the code evaluates it. -/
def chiDens (P : Prim) (s : ℚ) (df : ℤ) : ℚ :=
  P.exp (((df : ℚ) - 1) * P.log s + 0.5 * (df : ℚ) * (1 - s * s))

/-- 20-node Gauss-Legendre approximation of the integral of g over [a, b]
(midpoint-centred, symmetric pairs), with the node table of rng_lp.c. -/
def glApprox20 (g : ℚ → ℚ) (a b : ℚ) : ℚ :=
  ((b - a) / 2) * glsum rng_nd rng_wt g ((a + b) / 2) ((b - a) / 2)

/-- 40-node Gauss-Legendre approximation of the integral of g over [a, b]
(midpoint-centred, symmetric pairs), with the node table of smrng_lp.c. -/
def glApprox40 (g : ℚ → ℚ) (a b : ℚ) : ℚ :=
  ((b - a) / 2) * glsum smr_nd smr_wt g ((a + b) / 2) ((b - a) / 2)

/-- Sum of the second components of a node/weight pair list (the total of the
quadrature weights appearing in a glsum). -/
def sndSum (l : List (ℚ × ℚ)) : ℚ := l.foldl (fun acc nw => acc + nw.2) 0

/-- Concrete interpretation of the abstract transcendental interface used to
evaluate the code at explicit inputs: exp and log are the constant 1, sqrt is
the identity, powr returns its base, and nrml_p returns its argument. -/
def primC : Prim :=
  ⟨fun _ => 1, fun _ => 1, fun x => x, fun x _ => x, fun u _ => u⟩

/-- Abstract CDF instance used for concrete evaluations: the constant 7/10. -/
def PhiA : ℚ → ℚ := fun _ => 7 / 10

/-- Concrete interpretation with nrml_p following the section 6 contract as
written (CENTRAL = P(Z <= u) = Phi(u)). -/
def primA : Prim :=
  ⟨fun _ => 1, fun _ => 1, fun x => x, fun x _ => x, nrml_p_spec PhiA⟩

/-- Concrete interpretation with nrml_p following the amended CENTRAL
contract (CENTRAL = Phi(u) - 1/2). -/
def primB : Prim :=
  ⟨fun _ => 1, fun _ => 1, fun x => x, fun x _ => x, nrml_p_centre PhiA⟩

/-- Bracket invariant of smrng_lq.c, as the spec states it: x1 < x2,
y1 < p <= y2, y2 is the evaluator value at x2, and y1 is the evaluator value
at x1 or the initial pair (x1, y1) = (0, 0). -/
def brInv (F : ℚ → ℚ) (p : ℚ) (st : BrState) : Prop :=
  st.x1 < st.x2 ∧ st.y1 < p ∧ p ≤ st.y2 ∧ st.y2 = F st.x2 ∧
    (st.y1 = F st.x1 ∨ (st.x1 = 0 ∧ st.y1 = 0))

/-- Evaluator instance for concrete solver runs: F(x) = x/8. -/
def F5 : ℚ → ℚ := fun x => x / 8

/-- A trivial interpretation of the libm sqrt for runs that never reach the
quadratic-interpolation branch. -/
def msq0 : ℚ → ℚ := fun _ => 0

/-- The modelled libm sqrt used in the C6 scenario: exact at the one point
where it is evaluated (sqrt(1/4) = 1/2, as the machine sqrt is). -/
def msqC6 : ℚ → ℚ := fun z => if z = 1 / 4 then 1 / 2 else 0

/-- Bracket state of the C6 scenario: (x1,y1) = (0,0), (x2,y2) = (2,1),
historical point coincident with x1. -/
def stC6 : BrState := ⟨0, 0, 2, 1, 0, 0⟩

/-- Evaluator that satisfies the early-exit test immediately in state st7. -/
def F7 : ℚ → ℚ := fun _ => 1 / 2

/-- Evaluator for which the early-exit test never holds (its value is always
1/2 away from the target p = 1/2). -/
def F8 : ℚ → ℚ := fun _ => 0

/-- Bracket state for the C7 early-exit scenario. -/
def st7 : BrState := ⟨0, 0, 1/2, 1, 0, 0⟩

/-- Bracket state for the C7 budget-exhaustion scenario. -/
def st8 : BrState := ⟨0, 0, 2, 1, 0, 0⟩

/-- Bracketing result of the run F(x) = x/8, p = 3/10: the loop doubles once
and stops with bracket ((2, 1/4), (4, 1/2)) and seed (4, 1/2). -/
def stC9 : BrState := ⟨2, 1/4, 4, 1/2, 4, 1/2⟩

lemma foldl_add_shift (f : ℚ × ℚ → ℚ) (l : List (ℚ × ℚ)) :
    ∀ a : ℚ, l.foldl (fun acc nw => acc + f nw) a = a + l.foldl (fun acc nw => acc + f nw) 0 := by
  induction l with
  | nil => intro a; simp
  | cons hd tl ih =>
    intro a
    simp only [List.foldl_cons]
    rw [ih (a + f hd), ih (0 + f hd)]
    ring

lemma glsum_affine (nds wts : List ℚ) (m c0 cntr wdth : ℚ) :
    glsum nds wts (fun x => m * x + c0) cntr wdth =
      (2 * (m * cntr + c0)) * sndSum (List.zip nds wts) := by
  unfold glsum sndSum
  generalize List.zip nds wts = l
  induction l with
  | nil => simp
  | cons hd tl ih =>
    simp only [List.foldl_cons]
    rw [foldl_add_shift _ tl, foldl_add_shift (fun nw => nw.2) tl, ih]
    ring

lemma glsum_congr_pos (nds wts : List ℚ) (g h : ℚ → ℚ) (cntr wdth : ℚ)
    (hnd : ∀ n ∈ nds, 0 ≤ n ∧ n ≤ 1) (hw : 0 ≤ wdth) (hc : wdth < cntr)
    (hgh : ∀ x, 0 < x → g x = h x) :
    glsum nds wts g cntr wdth = glsum nds wts h cntr wdth := by
  unfold glsum
  induction nds generalizing wts with
  | nil => simp
  | cons n ns ih =>
    cases wts with
    | nil => simp
    | cons w ws =>
      have hn := hnd n (List.mem_cons_self n ns)
      have hlo : 0 < cntr - wdth * n := by nlinarith [hn.1, hn.2]
      have hhi : 0 < cntr + wdth * n := by nlinarith [hn.1, hn.2]
      simp only [List.zip_cons_cons, List.foldl_cons]
      rw [foldl_add_shift (fun nw => nw.2 * (g (cntr - wdth * nw.1) + g (cntr + wdth * nw.1)))
            (List.zip ns ws) (0 + w * (g (cntr - wdth * n) + g (cntr + wdth * n))),
          foldl_add_shift (fun nw => nw.2 * (h (cntr - wdth * nw.1) + h (cntr + wdth * nw.1)))
            (List.zip ns ws) (0 + w * (h (cntr - wdth * n) + h (cntr + wdth * n))),
          hgh _ hlo, hgh _ hhi,
          ih ws (fun x hx => hnd x (List.mem_cons_of_mem n hx))]

lemma smr_nd_bounds : ∀ n ∈ smr_nd, (0 : ℚ) ≤ n ∧ n ≤ 1 := by
  intro n hn
  fin_cases hn <;> constructor <;> norm_num

/-- Unfolding of smrng_lp in the two-segment regime: when q > 0, df >= 1 and
the scaled upper support ruq lies strictly inside the truncated chi interval,
the result is the chi-density-only 40-node segment over [ruq, su] plus the
full-integrand 40-node segment over [max(sl, rlq), ruq], times coef(df). -/
lemma smrng_lp_twoSeg (P : Prim) (q : ℚ) (k df nrng : ℤ) (cl cu sl su rlq ruq : ℚ)
    (hq : 0 < q) (hdf : 0 < df)
    (hcl : chi2l P df = some cl) (hcu : chi2u P df = some cu)
    (hrlq : rlq = rlower P k nrng / q)
    (hruq : ruq = rupper P k nrng / q)
    (hsl : sl = max (P.sqrt (cl / (df : ℚ))) rlq)
    (hsu : su = P.sqrt (cu / (df : ℚ)))
    (h1 : rlq < su) (h2 : sl < ruq) (h3 : ruq < su) :
    smrng_lp P q k df nrng =
      some (coef P df *
        (glApprox40 (fun s => f_chi P s k df nrng q 0) ruq su +
         glApprox40 (fun s => f_chi P s k df nrng q 1) sl ruq)) := by
  have half : ∀ x : ℚ, (0.5 : ℚ) * x = x / 2 := by
    intro x; rw [show (0.5 : ℚ) = 1 / 2 from by norm_num]; ring
  have hmax : (if P.sqrt (cl / (df : ℚ)) < rlq then rlq else P.sqrt (cl / (df : ℚ)))
      = max (P.sqrt (cl / (df : ℚ))) rlq := by
    rcases le_or_lt rlq (P.sqrt (cl / (df : ℚ))) with h | h
    · rw [if_neg (not_lt.mpr h), max_eq_left h]
    · rw [if_pos h, max_eq_right h.le]
  rw [smrng_lp, if_neg (not_le.mpr hq), if_neg (not_le.mpr hdf), hcl, hcu]
  simp only [Option.some_bind]
  rw [← hrlq, ← hsu, ← hruq, hmax, ← hsl]
  rw [if_neg (not_le.mpr h1), if_neg (not_le.mpr h2), if_pos h3]
  simp only [glApprox40, half]

lemma sndSum_smr : sndSum (List.zip smr_nd smr_wt) =
    100000000000000000000000000000000000023 / 100000000000000000000000000000000000000 := by
  norm_num [sndSum, smr_nd, smr_wt, List.zip, List.zipWith, List.foldl]

lemma rng_lp_primC (r : ℚ) : rng_lp primC r 2 = if r ≤ 0 then 0 else r := by
  by_cases h : r ≤ 0
  · rw [rng_lp, if_pos h, if_pos h]
  · rw [rng_lp, if_neg h, if_pos rfl, if_neg h]
    show 2 * (r / (2 : ℚ)) = r
    ring

lemma f_chi0_primC : (fun s => f_chi primC s 2 6 1 9 0) = fun s => (0 : ℚ) * s + 1 := by
  funext s
  have e : f_chi primC s 2 6 1 9 0 = 1 := rfl
  rw [e]; ring

lemma f_chi1_primC (x : ℚ) (hx : 0 < x) : f_chi primC x 2 6 1 9 1 = 9 * x + 0 := by
  have h9 : ¬(x * 9 ≤ 0) := by nlinarith
  have e : f_chi primC x 2 6 1 9 1 = 1 * (rng_lp primC (x * 9) 2) ^ (1 : ℕ) := rfl
  rw [e, rng_lp_primC, if_neg h9]; ring

/-- Claim C1 (amended): for q > 0, df >= 1, when the scaled range upper
support ruq = rupper(k,nrng)/q lies strictly inside the chi integration
interval (max(sl, rlq) < ruq < su), smrng_lp is the sum of two 40-node
Gauss-Legendre segments split at ruq, where in the LOWER segment
[max(sl,rlq), ruq] the FULL integrand including the factor
rng_lp(s*q,k)^nrng is evaluated (isw = 1), and in the segment ABOVE the
threshold, [ruq, su], the range-probability factor is forced to 1 and the
integrand is the chi density only (isw = 0) - the opposite assignment of the
segments to the one the claim states. -/
theorem C1_two_segment_amended (P : Prim) (q : ℚ) (k df nrng : ℤ)
    (cl cu sl su rlq ruq : ℚ)
    (hq : 0 < q) (hdf : 0 < df)
    (hcl : chi2l P df = some cl) (hcu : chi2u P df = some cu)
    (hrlq : rlq = rlower P k nrng / q) (hruq : ruq = rupper P k nrng / q)
    (hsl : sl = max (P.sqrt (cl / (df : ℚ))) rlq) (hsu : su = P.sqrt (cu / (df : ℚ)))
    (h1 : rlq < su) (h2 : sl < ruq) (h3 : ruq < su) :
    smrng_lp P q k df nrng =
      some (coef P df *
        (glApprox40 (fun s => f_chi P s k df nrng q 0) ruq su +
         glApprox40 (fun s => f_chi P s k df nrng q 1) sl ruq)) :=
  smrng_lp_twoSeg P q k df nrng cl cu sl su rlq ruq hq hdf hcl hcu hrlq hruq hsl hsu h1 h2 h3

/-- Witness for C1_two_segment_amended at the concrete interpretation primC,
q = 9, k = 2, df = 6, nrng = 1, where the two-segment regime holds. -/
theorem C1_two_segment_witness :
    smrng_lp primC 9 2 6 1 =
      some (coef primC 6 *
        (glApprox40 (fun s => f_chi primC s 2 6 1 9 0) (2177 / 1800)
           (primC.sqrt ((49541 / 6750 : ℚ) / 6)) +
         glApprox40 (fun s => f_chi primC s 2 6 1 9 1)
           (max (primC.sqrt ((6 : ℚ) / 6)) (1 / 9)) (2177 / 1800))) :=
  C1_two_segment_amended primC 9 2 6 1 6 (49541 / 6750)
    (max (primC.sqrt ((6 : ℚ) / 6)) (1 / 9)) (primC.sqrt ((49541 / 6750 : ℚ) / 6))
    (1 / 9) (2177 / 1800)
    (by norm_num) (by norm_num) (by norm_num [chi2l, primC]) (by norm_num [chi2u, primC])
    (by norm_num [rlower, primC]) (by norm_num [rupper, primC]) rfl rfl
    (by norm_num [primC]) (by norm_num [primC]) (by norm_num [primC])

/-- Counterexample to claim C1 as stated: at primC, q = 9, k = 2, df = 6,
nrng = 1 the two-segment regime holds (first five conjuncts), yet smrng_lp
differs from the claimed value in which the lower segment [max(sl,rlq), ruq]
carries the chi density only and the upper segment [ruq, su] carries the
full integrand: the code assigns the segments the other way around. -/
theorem C1_two_segment_counterexample :
    chi2l primC 6 = some 6 ∧
    chi2u primC 6 = some (49541 / 6750) ∧
    rlower primC 2 1 / 9 < primC.sqrt ((49541 / 6750 : ℚ) / 6) ∧
    max (primC.sqrt ((6 : ℚ) / 6)) (rlower primC 2 1 / 9) < rupper primC 2 1 / 9 ∧
    rupper primC 2 1 / 9 < primC.sqrt ((49541 / 6750 : ℚ) / 6) ∧
    smrng_lp primC 9 2 6 1 ≠
      some (coef primC 6 *
        (glApprox40 (fun s => f_chi primC s 2 6 1 9 0)
            (max (primC.sqrt ((6 : ℚ) / 6)) (rlower primC 2 1 / 9)) (rupper primC 2 1 / 9) +
         glApprox40 (fun s => f_chi primC s 2 6 1 9 1) (rupper primC 2 1 / 9)
            (primC.sqrt ((49541 / 6750 : ℚ) / 6)))) := by
  refine ⟨by norm_num [chi2l, primC], by norm_num [chi2u, primC],
    by norm_num [rlower, primC], by norm_num [rlower, rupper, primC],
    by norm_num [rupper, primC], ?_⟩
  have e1 : rlower primC 2 1 / 9 = (1 : ℚ) / 9 := by norm_num [rlower, primC]
  have e2 : rupper primC 2 1 / 9 = (2177 : ℚ) / 1800 := by norm_num [rupper, primC]
  have e3 : primC.sqrt ((49541 / 6750 : ℚ) / 6) = 49541 / 40500 := by norm_num [primC]
  have e4 : max (primC.sqrt ((6 : ℚ) / 6)) ((1 : ℚ) / 9) = 1 := by norm_num [primC]
  have ecoef : coef primC 6 = 2 := by norm_num [coef, coefSum, primC]
  have hcode := smrng_lp_twoSeg primC 9 2 6 1 6 (49541 / 6750) 1 (49541 / 40500)
    (1 / 9) (2177 / 1800) (by norm_num) (by norm_num)
    (by norm_num [chi2l, primC]) (by norm_num [chi2u, primC])
    (by rw [e1]) (by rw [e2]) (by rw [e4.symm]; norm_num [primC]) (by norm_num [primC])
    (by norm_num) (by norm_num) (by norm_num)
  have h0 : ∀ a b : ℚ, glApprox40 (fun s => f_chi primC s 2 6 1 9 0) a b
      = ((b - a) / 2) * ((2 * (0 * ((a + b) / 2) + 1)) *
          (100000000000000000000000000000000000023 / 100000000000000000000000000000000000000)) := by
    intro a b
    rw [glApprox40, f_chi0_primC, glsum_affine, sndSum_smr]
  have h1 : ∀ a b : ℚ, 0 ≤ (b - a) / 2 → (b - a) / 2 < (a + b) / 2 →
      glApprox40 (fun s => f_chi primC s 2 6 1 9 1) a b
      = ((b - a) / 2) * ((2 * (9 * ((a + b) / 2) + 0)) *
          (100000000000000000000000000000000000023 / 100000000000000000000000000000000000000)) := by
    intro a b hw hc
    rw [glApprox40,
      glsum_congr_pos smr_nd smr_wt _ (fun x => 9 * x + 0) _ _ smr_nd_bounds hw hc
        (fun x hx => f_chi1_primC x hx),
      glsum_affine, sndSum_smr]
  rw [hcode, e1, e2, e3, e4, ecoef]
  rw [h0 1 (2177 / 1800), h0 (2177 / 1800) (49541 / 40500),
      h1 1 (2177 / 1800) (by norm_num) (by norm_num),
      h1 (2177 / 1800) (49541 / 40500) (by norm_num) (by norm_num)]
  norm_num

lemma chi2l_isSome (P : Prim) (df : ℤ) (hdf : 1 ≤ df) : (chi2l P df).isSome := by
  rw [chi2l]
  by_cases h5 : df ≤ 5
  · rw [if_pos h5, tableGetI, if_pos (by omega : (0 : ℤ) ≤ df - 1)]
    interval_cases df <;> rfl
  · rw [if_neg h5]
    by_cases h20 : df ≤ 20
    · rw [if_pos h20]; rfl
    · rw [if_neg h20]; rfl

lemma chi2u_isSome (P : Prim) (df : ℤ) (hdf : 1 ≤ df) : (chi2u P df).isSome := by
  rw [chi2u]
  by_cases h5 : df ≤ 5
  · rw [if_pos h5, tableGetI, if_pos (by omega : (0 : ℤ) ≤ df - 1)]
    interval_cases df <;> rfl
  · rw [if_neg h5]; rfl

/-- Claim C10 (confirmed): the fixed tables first[5] of chi2u and chi2l are
read at index df-1 only under the guard df <= 5 and only from calls with
df >= 1, where the index lies within [0,4], so both lookups succeed; and
smrng_lp reaches chi2u/chi2l only after its df <= 0 early return, so every
smrng_lp evaluation is free of out-of-bounds reads (it is always some). -/
theorem C10_table_index_safety (P : Prim) (q : ℚ) (k df nrng : ℤ) (hdf : 1 ≤ df) :
    (chi2l P df).isSome ∧ (chi2u P df).isSome ∧
    ∀ df2 : ℤ, (smrng_lp P q k df2 nrng).isSome := by
  refine ⟨chi2l_isSome P df hdf, chi2u_isSome P df hdf, fun df2 => ?_⟩
  rw [smrng_lp]
  by_cases hq : q ≤ 0
  · rw [if_pos hq]; rfl
  · rw [if_neg hq]
    by_cases hdf2 : df2 ≤ 0
    · rw [if_pos hdf2]; rfl
    · rw [if_neg hdf2]
      obtain ⟨cl, hcl⟩ := Option.isSome_iff_exists.mp (chi2l_isSome P df2 (by omega))
      obtain ⟨cu, hcu⟩ := Option.isSome_iff_exists.mp (chi2u_isSome P df2 (by omega))
      rw [hcl, hcu]
      simp only [Option.some_bind]
      split_ifs <;> rfl

/-- Witness for C10_table_index_safety at primC, df = 6. -/
theorem C10_table_index_safety_witness :
    (chi2l primC 6).isSome ∧ (chi2u primC 6).isSome ∧
    ∀ df2 : ℤ, (smrng_lp primC 9 2 df2 1).isSome :=
  C10_table_index_safety primC 9 2 6 1 (by decide)

/-- Claim C4 (confirmed): for every df <= 0 and nrng >= 1, smrng_lp equals
rng_lp(q,k)^nrng - the very same expression in the model, with no
error-variance integration - including at q <= 0, where both sides are 0;
and for q <= 0 the result is 0 for every df. -/
theorem C4_infinite_df (P : Prim) (q : ℚ) (k df nrng : ℤ) (hn : 1 ≤ nrng) :
    (df ≤ 0 → smrng_lp P q k df nrng = some ((rng_lp P q k) ^ nrng.toNat)) ∧
    (q ≤ 0 → smrng_lp P q k df nrng = some 0) := by
  constructor
  · intro hdf
    by_cases hq : q ≤ 0
    · rw [smrng_lp, if_pos hq]
      have hr : rng_lp P q k = 0 := by rw [rng_lp, if_pos hq]
      rw [hr, zero_pow (by omega : nrng.toNat ≠ 0)]
    · rw [smrng_lp, if_neg hq, if_pos hdf]
  · intro hq
    rw [smrng_lp, if_pos hq]

/-- Witness for C4_infinite_df at primC, q = 0, k = 2, df = 0, nrng = 1. -/
theorem C4_infinite_df_witness :
    smrng_lp primC 0 2 0 1 = some ((rng_lp primC 0 2) ^ (1 : ℤ).toNat) ∧
    smrng_lp primC 0 2 0 1 = some 0 :=
  ⟨(C4_infinite_df primC 0 2 0 1 (by decide)).1 (by decide),
   (C4_infinite_df primC 0 2 0 1 (by decide)).2 (by decide)⟩

lemma glsum_smul (nds wts : List ℚ) (g : ℚ → ℚ) (c cntr wdth : ℚ) :
    glsum nds wts (fun x => c * g x) cntr wdth = c * glsum nds wts g cntr wdth := by
  unfold glsum
  generalize List.zip nds wts = l
  induction l with
  | nil => simp
  | cons hd tl ih =>
    simp only [List.foldl_cons]
    rw [foldl_add_shift (fun nw => nw.2 * (c * g (cntr - wdth * nw.1) + c * g (cntr + wdth * nw.1)))
          tl (0 + hd.2 * (c * g (cntr - wdth * hd.1) + c * g (cntr + wdth * hd.1))),
        foldl_add_shift (fun nw => nw.2 * (g (cntr - wdth * nw.1) + g (cntr + wdth * nw.1)))
          tl (0 + hd.2 * (g (cntr - wdth * hd.1) + g (cntr + wdth * hd.1))), ih]
    ring

/-- Under the section 6 contract for nrml_p, the interval probability
nrml_ip(a, b) equals Phi(b) - Phi(a) in every one of its three tail-region
branches. -/
lemma nrml_ip_spec (Q : Prim) (Phi : ℚ → ℚ) (hQ : Q.nrml_p = nrml_p_spec Phi)
    (a b : ℚ) (hab : a < b) : nrml_ip Q a b = Phi b - Phi a := by
  rw [nrml_ip, hQ, if_neg (not_le.mpr hab)]
  by_cases h1 : BORDER < a
  · rw [if_pos h1]; simp only [nrml_p_spec]; norm_num
  · rw [if_neg h1]
    by_cases h2 : b < -BORDER
    · rw [if_pos h2]; simp only [nrml_p_spec]; norm_num
    · rw [if_neg h2]; simp only [nrml_p_spec]; norm_num

/-- Claim C2 (amended): with nrml_p modelled from the section 6 contract
(an abstract standard normal CDF Phi), for r > 0 and k >= 3 rng_lp returns
the Hartley sum whose first term is (2 * Phi(r/2))^k - the k-th power of
twice the CENTRAL value, not 2 * Phi(r/2)^k - plus, exactly when the
adaptive upper limit u(r,k) exceeds r/2, the correction term
2k * GL20 of phi(x) * (Phi(x) - Phi(x-r))^(k-1) over [r/2, u(r,k)]. -/
theorem C2_hartley_amended (Q : Prim) (Phi : ℚ → ℚ) (r : ℚ) (k : ℤ)
    (hQ : Q.nrml_p = nrml_p_spec Phi) (hr : 0 < r) (hk : 3 ≤ k) :
    rng_lp Q r k =
      (2 * Phi (r / 2)) ^ k.toNat +
      (if 0.5 * r < ulim Q r k then
        2 * (k : ℚ) *
          glApprox20 (fun x => normalPdf Q x * (Phi x - Phi (x - r)) ^ (k - 1).toNat)
            (r / 2) (ulim Q r k)
      else 0) := by
  have h05 : (0.5 : ℚ) * r = r / 2 := by
    rw [show (0.5 : ℚ) = 1 / 2 from by norm_num]; ring
  have hfirst : (2 * Q.nrml_p (0.5 * r) 2) ^ k.toNat = (2 * Phi (r / 2)) ^ k.toNat := by
    rw [hQ, h05]
    simp only [nrml_p_spec]
    norm_num
  rw [rng_lp, if_neg (not_le.mpr hr), if_neg (by omega : ¬k = 2)]
  simp only
  rw [hfirst]
  by_cases hxu : 0.5 * r < ulim Q r k
  · rw [if_pos hxu, if_pos hxu]
    have hint : (fun x => f_rng Q x r k)
        = fun x => Q.exp (-(0.5) * x * x) * (Phi x - Phi (x - r)) ^ (k - 1).toNat := by
      funext x
      rw [f_rng, nrml_ip_spec Q Phi hQ _ _ (by linarith)]
    have hpdf : (fun x => normalPdf Q x * (Phi x - Phi (x - r)) ^ (k - 1).toNat)
        = fun x => CNST0 * (Q.exp (-(0.5) * x * x) * (Phi x - Phi (x - r)) ^ (k - 1).toNat) := by
      funext x
      rw [normalPdf]; ring
    rw [glApprox20, hpdf, glsum_smul, hint]
    have hc : (0.5 : ℚ) * (ulim Q r k + 0.5 * r) = (r / 2 + ulim Q r k) / 2 := by
      rw [show (0.5 : ℚ) = 1 / 2 from by norm_num]; ring
    have hw : (0.5 : ℚ) * (ulim Q r k - 0.5 * r) = (ulim Q r k - r / 2) / 2 := by
      rw [show (0.5 : ℚ) = 1 / 2 from by norm_num]; ring
    rw [hc, hw]
    ring
  · rw [if_neg hxu, if_neg hxu]
    ring

/-- Witness for C2_hartley_amended at primA, r = 1, k = 3. -/
theorem C2_hartley_witness :
    rng_lp primA 1 3 =
      (2 * PhiA (1 / 2)) ^ (3 : ℤ).toNat +
      (if 0.5 * 1 < ulim primA 1 3 then
        2 * ((3 : ℤ) : ℚ) *
          glApprox20 (fun x => normalPdf primA x * (PhiA x - PhiA (x - 1)) ^ ((3 : ℤ) - 1).toNat)
            (1 / 2) (ulim primA 1 3)
      else 0) :=
  C2_hartley_amended primA PhiA 1 3 rfl (by norm_num) (by decide)

/-- Counterexample to claim C2 as stated: at primA (section 6 contract,
CENTRAL = Phi), r = 1, k = 3, rng_lp returns (2 * Phi(r/2))^k - the code
computes pow(2.0*nrml_p(0.5*r,2), k) - which differs from the claimed
first term 2 * Phi(r/2)^k (the adaptive upper limit is 0 here, so the
result is the first term alone and the two readings are directly
comparable). -/
theorem C2_hartley_counterexample :
    rng_lp primA 1 3 = (2 * PhiA (1 / 2)) ^ (3 : ℤ).toNat ∧
    rng_lp primA 1 3 ≠ 2 * PhiA (1 / 2) ^ (3 : ℤ).toNat := by
  have hx : ulim primA 1 3 = 0 := by norm_num [ulim, primA]
  constructor
  · rw [rng_lp, if_neg (by norm_num), if_neg (by decide)]
    simp only
    rw [hx, if_neg (by norm_num)]
    norm_num [primA, PhiA, nrml_p_spec]
  · rw [rng_lp, if_neg (by norm_num), if_neg (by decide)]
    simp only
    rw [hx, if_neg (by norm_num)]
    show (0 : ℚ) + (2 * primA.nrml_p (0.5 * 1) 2) ^ (3 : ℕ) ≠ 2 * PhiA (1 / 2) ^ (3 : ℕ)
    norm_num [primA, PhiA, nrml_p_spec]

/-- Claim C3 (amended): with the CENTRAL mode of nrml_p amended to return
the central probability P(0 < Z <= u) = Phi(u) - 1/2 (the only contract
consistent with the k = 2 closed form), rng_lp(r, 2) equals
2 * Phi(r / sqrt 2) - 1 exactly, via the single CENTRAL call
2.0 * nrml_p(r / sqrt(2.0), 2). -/
theorem C3_k2_closed_form_amended (Q : Prim) (Phi : ℚ → ℚ) (r : ℚ)
    (hQ : Q.nrml_p = nrml_p_centre Phi) (hr : 0 < r) :
    rng_lp Q r 2 = 2 * Phi (r / Q.sqrt 2) - 1 := by
  rw [rng_lp, if_neg (not_le.mpr hr), if_pos rfl, hQ]
  simp only [nrml_p_centre]
  norm_num
  ring

/-- Witness for C3_k2_closed_form_amended at primB, r = 1. -/
theorem C3_k2_closed_form_witness :
    rng_lp primB 1 2 = 2 * PhiA (1 / primB.sqrt 2) - 1 :=
  C3_k2_closed_form_amended primB PhiA 1 rfl (by norm_num)

/-- Counterexample to claim C3 as stated: under the section 6 contract that
CENTRAL returns P(Z <= u) = Phi(u) (interpretation primA), rng_lp(r, 2) =
2 * Phi(r / sqrt 2) differs from 2 * Phi(r / sqrt 2) - 1 by exactly 1 at
r = 1 (a point of [0.1, 10]), far beyond the claimed 1e-12 agreement. -/
theorem C3_k2_closed_form_counterexample :
    ((1 : ℚ) / 10 ≤ 1 ∧ (1 : ℚ) ≤ 10) ∧
    |rng_lp primA 1 2 - (2 * PhiA (1 / primA.sqrt 2) - 1)| = 1 ∧
    ¬|rng_lp primA 1 2 - (2 * PhiA (1 / primA.sqrt 2) - 1)| < 1.0e-12 := by
  refine ⟨⟨by norm_num, by norm_num⟩, ?_, ?_⟩ <;>
    norm_num [rng_lp, primA, PhiA, nrml_p_spec]

lemma trialX_mem (msqrt : ℚ → ℚ) (p xeps : ℚ) (i : ℕ) (st : BrState) (h : st.x1 < st.x2) :
    st.x1 ≤ trialX msqrt p xeps i st ∧ trialX msqrt p xeps i st ≤ st.x2 := by
  rw [trialX]
  split_ifs with h1 h2
  · constructor <;> linarith
  · constructor <;> linarith
  · push_neg at h2
    exact h2

lemma stepSt_inv (F msqrt : ℚ → ℚ) (p xeps : ℚ) (i : ℕ) (st : BrState)
    (hF0 : F 0 < p) (h : brInv F p st) : brInv F p (stepSt F msqrt p xeps i st) := by
  obtain ⟨h12, hy1, hy2, hyF2, hyF1⟩ := h
  obtain ⟨hmem1, hmem2⟩ := trialX_mem msqrt p xeps i st h12
  rw [stepSt, updateBr]
  by_cases hyp : p ≤ F (trialX msqrt p xeps i st)
  · rw [if_pos hyp]
    refine ⟨?_, hy1, hyp, rfl, hyF1⟩
    rcases lt_or_eq_of_le hmem1 with hlt | heq
    · exact hlt
    · exfalso
      rcases hyF1 with h1 | ⟨h1, h2⟩
      · rw [← heq, ← h1] at hyp
        linarith
      · rw [← heq, h1] at hyp
        linarith
  · rw [if_neg hyp]
    push_neg at hyp
    refine ⟨?_, hyp, hy2, hyF2, Or.inl rfl⟩
    rcases lt_or_eq_of_le hmem2 with hlt | heq
    · exact hlt
    · exfalso
      rw [heq, ← hyF2] at hyp
      linarith

lemma bracket_inv (F : ℚ → ℚ) (p : ℚ) (hp : 0 < p) :
    ∀ (fuel : ℕ) (x1 y1 x2 y2 : ℚ) (itr n : ℕ) (st : BrState),
      0 < x2 → x1 < x2 → y1 < p → y2 = F x2 → (y1 = F x1 ∨ (x1 = 0 ∧ y1 = 0)) →
      bracketAux F p fuel x1 y1 x2 y2 itr = some (st, n) → brInv F p st := by
  intro fuel
  induction fuel with
  | zero =>
    intro x1 y1 x2 y2 itr n st h0 h12 hy1 hy2 hyd hbr
    simp [bracketAux] at hbr
  | succ m ih =>
    intro x1 y1 x2 y2 itr n st h0 h12 hy1 hy2 hyd hbr
    rw [bracketAux] at hbr
    by_cases hc : y2 < p
    · rw [if_pos hc] at hbr
      exact ih x2 y2 (2 * x2) (F (2 * x2)) (itr + 1) n st (by linarith) (by linarith) hc rfl
        (Or.inl hy2) hbr
    · rw [if_neg hc] at hbr
      have heq := Option.some_inj.mp hbr
      rw [Prod.ext_iff] at heq
      have h1 : ({ x1 := x1, y1 := y1, x2 := x2, y2 := y2, x3 := x2, y3 := y2 } : BrState) = st :=
        heq.1
      rw [← h1]
      exact ⟨h12, hy1, not_lt.mp hc, hy2, hyd⟩

/-- Claim C5 (confirmed): once the bracketing phase has terminated (for
0 < p and an evaluator with F(0) < p, as smrng_lp(0) = 0 ensures), the
bracket invariant x1 < x2, y1 < p <= y2 - with y1 and y2 the evaluator
values at x1 and x2, allowing the initial (x1, y1) = (0, 0) - holds at
every iterate of the refinement loop, and every single bracket update (a
trial with y >= p replacing (x2, y2) with old (x2, y2) moved into (x3, y3),
a trial with y < p replacing (x1, y1) with old (x1, y1) moved into
(x3, y3)) preserves it. -/
theorem C5_bracket_invariant (F msqrt : ℚ → ℚ) (p xeps : ℚ) (fuel n : ℕ) (st0 : BrState)
    (hp : 0 < p) (hF0 : F 0 < p)
    (hbr : bracketAux F p fuel 0 0 2 (F 2) 1 = some (st0, n)) :
    (∀ m, brInv F p (iterSt F msqrt p xeps m 1 st0)) ∧
    (∀ (i : ℕ) (st : BrState), brInv F p st → brInv F p (stepSt F msqrt p xeps i st)) := by
  have hst0 : brInv F p st0 :=
    bracket_inv F p hp fuel 0 0 2 (F 2) 1 n st0 (by norm_num) (by norm_num) hp rfl
      (Or.inr ⟨rfl, rfl⟩) hbr
  refine ⟨?_, fun i st h => stepSt_inv F msqrt p xeps i st hF0 h⟩
  have key : ∀ (m i : ℕ) (st : BrState), brInv F p st →
      brInv F p (iterSt F msqrt p xeps m i st) := by
    intro m
    induction m with
    | zero => intro i st h; exact h
    | succ mm ih =>
      intro i st h
      exact ih (i + 1) _ (stepSt_inv F msqrt p xeps i st hF0 h)
  exact fun m => key m 1 st0 hst0

/-- Witness for C5_bracket_invariant: F(x) = x/8, p = 3/10; the bracketing
phase ends with the bracket ((2, 1/4), (4, 1/2)) after 2 evaluations, and
the invariant holds after 3 refinement iterations. -/
theorem C5_bracket_invariant_witness :
    brInv F5 (3 / 10) (iterSt F5 msq0 (3 / 10) 1 3 1 ⟨2, 1/4, 4, 1/2, 4, 1/2⟩) :=
  (C5_bracket_invariant F5 msq0 (3 / 10) 1 10 2 ⟨2, 1/4, 4, 1/2, 4, 1/2⟩
    (by norm_num) (by norm_num [F5]) (by norm_num [bracketAux, F5])).1 3

/-- Claim C6 (amended): on an even refinement iteration with probability
span at least YEPS, when the historical point x3 is numerically coincident
with a bracket endpoint (within xeps), the code zeroes the curvature
coefficient a and the root formula degenerates to the LINEAR interpolation
(secant) point x1 + (p - y1)/b with b the bracket slope - which under the
bracket invariant always lies in (x1, x2], so the out-of-bracket bisection
fallback does not fire and the trial point is the secant point, not the
bisection midpoint.  (The hypothesis on msqrt states that the modelled sqrt
is exact on the square b*b, as the libm sqrt is at the evaluated point.) -/
theorem C6_coincident_secant_amended (msqrt : ℚ → ℚ) (p xeps b : ℚ) (i : ℕ) (st : BrState)
    (hi : i % 2 = 0) (hy : ¬|st.y2 - st.y1| < YEPS)
    (hco : |st.x1 - st.x3| < xeps ∨ |st.x2 - st.x3| < xeps)
    (hx12 : st.x1 < st.x2) (hy1 : st.y1 < p) (hy2 : p ≤ st.y2)
    (hb : b = (st.y2 - st.y1) / (st.x2 - st.x1)) (hsq : msqrt (b * b) = b) :
    trialX msqrt p xeps i st = st.x1 + (p - st.y1) / b := by
  have hx21 : (0 : ℚ) < st.x2 - st.x1 := by linarith
  have hy21 : (0 : ℚ) < st.y2 - st.y1 := by linarith
  have hb0 : 0 < b := hb ▸ div_pos hy21 hx21
  have hintp : interpX msqrt p xeps st = st.x1 + (p - st.y1) / b := by
    rw [interpX]
    simp only [if_pos hco]
    rw [if_neg (lt_irrefl 0)]
    have e1 : (st.y2 - st.y1) / (st.x2 - st.x1) - 0 * (st.x2 - st.x1) = b := by
      rw [hb]; ring
    rw [e1]
    rw [show b * b + 4 * 0 * (p - st.y1) = b * b from by ring, hsq]
    have hbb : b + b ≠ 0 := by positivity
    field_simp
    ring
  have hgt : st.x1 < st.x1 + (p - st.y1) / b := by
    have : 0 < (p - st.y1) / b := div_pos (by linarith) hb0
    linarith
  have hle : st.x1 + (p - st.y1) / b ≤ st.x2 := by
    have h1 : (p - st.y1) / b ≤ (st.y2 - st.y1) / b :=
      (div_le_div_right hb0).mpr (by linarith)
    have h2 : (st.y2 - st.y1) / b = st.x2 - st.x1 := by
      rw [hb]
      field_simp
    linarith
  rw [trialX, if_neg (by push_neg; exact ⟨by omega, not_lt.mp hy⟩), hintp,
    if_neg (by push_neg; exact ⟨hgt.le, hle⟩)]

/-- Witness for C6_coincident_secant_amended in the stC6 scenario at
iteration 2, p = 1/4, xeps = 1: the trial point is the secant point. -/
theorem C6_coincident_secant_witness :
    trialX msqC6 (1 / 4) 1 2 stC6 = stC6.x1 + (1 / 4 - stC6.y1) / (1 / 2) :=
  C6_coincident_secant_amended msqC6 (1 / 4) 1 (1 / 2) 2 stC6
    (by norm_num) (by norm_num [stC6, YEPS]) (Or.inl (by norm_num [stC6]))
    (by norm_num [stC6]) (by norm_num [stC6]) (by norm_num [stC6])
    (by norm_num [stC6]) (by norm_num [msqC6])

/-- Counterexample to claim C6 as stated: at iteration i = 2 in state stC6
with p = 1/4 and xeps = 1, the span |y2 - y1| = 1 is at least YEPS and the
historical point is coincident with x1 (|x1 - x3| = 0 < xeps), yet the trial
point is 1/2 - the linear-interpolation point - and not the bisection
midpoint 0.5*(x1 + x2) = 1. -/
theorem C6_coincident_secant_counterexample :
    2 % 2 = 0 ∧
    ¬|stC6.y2 - stC6.y1| < YEPS ∧
    |stC6.x1 - stC6.x3| < 1 ∧
    stC6.x1 < stC6.x2 ∧ stC6.y1 < (1 / 4 : ℚ) ∧ (1 / 4 : ℚ) ≤ stC6.y2 ∧
    trialX msqC6 (1 / 4) 1 2 stC6 = 1 / 2 ∧
    trialX msqC6 (1 / 4) 1 2 stC6 ≠ 0.5 * (stC6.x1 + stC6.x2) := by
  refine ⟨by norm_num, by norm_num [stC6, YEPS], by norm_num [stC6], by norm_num [stC6],
    by norm_num [stC6], by norm_num [stC6], ?_, ?_⟩ <;>
    norm_num [trialX, interpX, msqC6, stC6, YEPS, abs_lt]

/-- Claim C7 (confirmed): the refinement loop accepts a trial point early
exactly when both |x2 - x1| < xeps and |y - p| < peps hold after the trial
evaluation (first conjunct: if the test holds at the current iteration the
loop returns that trial immediately with one more evaluation counted), and
when the test fails at every one of the remaining iterations the loop runs
its entire budget and returns the last trial abscissa anyway, with the
evaluation count - the only signal - incremented once per iteration (second
conjunct). -/
theorem C7_early_exit_and_cap (F msqrt : ℚ → ℚ) (p xeps peps : ℚ) (fuel i itr : ℕ)
    (st : BrState) :
    (breakB F msqrt p xeps peps i st = true →
      refineAux F msqrt p xeps peps (fuel + 1) i st itr = (trialX msqrt p xeps i st, itr + 1)) ∧
    (noBreakB F msqrt p xeps peps (fuel + 1) i st = true →
      refineAux F msqrt p xeps peps (fuel + 1) i st itr =
        (trialX msqrt p xeps (i + fuel) (iterSt F msqrt p xeps fuel i st), itr + fuel + 1)) := by
  constructor
  · intro hb
    have hb2 : |st.x2 - st.x1| < xeps ∧ |F (trialX msqrt p xeps i st) - p| < peps := by
      rw [breakB, Bool.and_eq_true, decide_eq_true_eq, decide_eq_true_eq] at hb
      exact hb
    rw [refineAux, if_pos hb2]
  · induction fuel generalizing i st itr with
    | zero =>
      intro hnb
      rw [noBreakB, Bool.and_eq_true, Bool.not_eq_true'] at hnb
      have hb2 : ¬(|st.x2 - st.x1| < xeps ∧ |F (trialX msqrt p xeps i st) - p| < peps) := by
        intro hc
        rw [breakB, decide_eq_true hc.1, decide_eq_true hc.2] at hnb
        simp at hnb
      rw [refineAux, if_neg hb2]
      simp [iterSt]
    | succ m ih =>
      intro hnb
      rw [noBreakB, Bool.and_eq_true, Bool.not_eq_true'] at hnb
      obtain ⟨hb, hnb2⟩ := hnb
      have hb2 : ¬(|st.x2 - st.x1| < xeps ∧ |F (trialX msqrt p xeps i st) - p| < peps) := by
        intro hc
        rw [breakB, decide_eq_true hc.1, decide_eq_true hc.2] at hb
        simp at hb
      rw [refineAux, if_neg hb2, if_neg (Nat.succ_ne_zero m)]
      rw [show updateBr st (trialX msqrt p xeps i st) (F (trialX msqrt p xeps i st)) p
            = stepSt F msqrt p xeps i st from rfl]
      rw [ih (i + 1) (itr + 1) (stepSt F msqrt p xeps i st) hnb2]
      have hii : i + 1 + m = i + (m + 1) := by omega
      have hit : iterSt F msqrt p xeps (m + 1) i st
          = iterSt F msqrt p xeps m (i + 1) (stepSt F msqrt p xeps i st) := rfl
      rw [hii, hit]
      congr 1
      omega

/-- Witness for C7_early_exit_and_cap: with F7, p = 1/2, xeps = peps = 1 the
test holds at iteration 1 in st7 and the loop returns the first trial with
one evaluation; with F8, p = 1/2, xeps = 1, peps = 1/100 the test never
holds, and a 2-iteration budget runs in full, returning the second trial
with two evaluations. -/
theorem C7_early_exit_and_cap_witness :
    refineAux F7 msq0 (1/2) 1 1 1 1 st7 0 = (trialX msq0 (1/2) 1 1 st7, 1) ∧
    refineAux F8 msq0 (1/2) 1 (1/100) 2 1 st8 0 =
      (trialX msq0 (1/2) 1 (1 + 1) (iterSt F8 msq0 (1/2) 1 1 1 st8), 2) :=
  ⟨(C7_early_exit_and_cap F7 msq0 (1/2) 1 1 0 1 0 st7).1
      (by norm_num [breakB, trialX, F7, st7, abs_lt]),
   (C7_early_exit_and_cap F8 msq0 (1/2) 1 (1/100) 1 1 0 st8).2
      (by norm_num [noBreakB, breakB, stepSt, updateBr, trialX, interpX, F8, st8, YEPS, msq0,
        abs_lt])⟩

/-- Claim C8 (confirmed): for p <= 0 the solver returns exactly 0 with the
evaluation counter 0, and for p >= 1 it returns exactly 1.0e+99 with the
counter 0; the result is the same for every evaluator, every modelled sqrt,
every tolerance pair and every fuel - the probability evaluator is never
invoked. -/
theorem C8_boundary_returns (F G msqrt msqrt2 : ℚ → ℚ) (p xeps peps xeps2 peps2 : ℚ)
    (fuel fuel2 : ℕ) (h : p ≤ 0 ∨ 1 ≤ p) :
    smrng_lq F msqrt p xeps peps fuel = some ((if p ≤ 0 then 0 else 1.0e+99), 0) ∧
    smrng_lq F msqrt p xeps peps fuel = smrng_lq G msqrt2 p xeps2 peps2 fuel2 := by
  have e : ∀ (Fa msa : ℚ → ℚ) (xa pa : ℚ) (fa : ℕ),
      smrng_lq Fa msa p xa pa fa = some ((if p ≤ 0 then 0 else 1.0e+99), 0) := by
    intro Fa msa xa pa fa
    by_cases h0 : p ≤ 0
    · rw [smrng_lq, if_pos h0, if_pos h0]
    · rcases h with h | h
      · exact absurd h h0
      · rw [smrng_lq, if_neg h0, if_pos h, if_neg h0]
  exact ⟨e F msqrt xeps peps fuel,
    by rw [e F msqrt xeps peps fuel, e G msqrt2 xeps2 peps2 fuel2]⟩

/-- Witness for C8_boundary_returns at p = 0 with two different evaluators
and parameter sets. -/
theorem C8_boundary_returns_witness :
    smrng_lq (fun _ => 37) (fun _ => 0) 0 1 1 5 =
      some ((if (0 : ℚ) ≤ 0 then 0 else 1.0e+99), 0) ∧
    smrng_lq (fun _ => 37) (fun _ => 0) 0 1 1 5 =
      smrng_lq (fun _ => 41) (fun _ => 1) 0 2 2 7 :=
  C8_boundary_returns (fun _ => 37) (fun _ => 41) (fun _ => 0) (fun _ => 1) 0 1 1 2 2 5 7
    (Or.inl (by norm_num))

lemma bracket_doubling (F : ℚ → ℚ) (p : ℚ) :
    ∀ (fuel : ℕ) (x1 y1 x2 y2 : ℚ) (itr n : ℕ) (st : BrState),
      y2 = F x2 →
      ((x1 = 0 ∧ y1 = 0 ∧ x2 = 2) ∨ (x2 = 2 * x1 ∧ y1 = F x1 ∧ y1 < p)) →
      (∃ j : ℕ, x2 = 2 ^ (j + 1)) →
      bracketAux F p fuel x1 y1 x2 y2 itr = some (st, n) →
      st.x3 = st.x2 ∧ st.y3 = st.y2 ∧ p ≤ st.y2 ∧ st.y2 = F st.x2 ∧
        ((st.x1 = 0 ∧ st.y1 = 0 ∧ st.x2 = 2) ∨
          (st.x2 = 2 * st.x1 ∧ st.y1 = F st.x1 ∧ st.y1 < p)) ∧
        ∃ j : ℕ, st.x2 = 2 ^ (j + 1) := by
  intro fuel
  induction fuel with
  | zero =>
    intro x1 y1 x2 y2 itr n st hy2 hshape hpow hbr
    simp [bracketAux] at hbr
  | succ m ih =>
    intro x1 y1 x2 y2 itr n st hy2 hshape hpow hbr
    rw [bracketAux] at hbr
    by_cases hc : y2 < p
    · rw [if_pos hc] at hbr
      obtain ⟨j, hj⟩ := hpow
      exact ih x2 y2 (2 * x2) (F (2 * x2)) (itr + 1) n st rfl
        (Or.inr ⟨rfl, hy2, hc⟩) ⟨j + 1, by rw [hj]; ring⟩ hbr
    · rw [if_neg hc] at hbr
      have heq := Option.some_inj.mp hbr
      rw [Prod.ext_iff] at heq
      have h1 : ({ x1 := x1, y1 := y1, x2 := x2, y2 := y2, x3 := x2, y3 := y2 } : BrState) = st :=
        heq.1
      rw [← h1]
      exact ⟨rfl, rfl, not_lt.mp hc, hy2, hshape, hpow⟩

/-- Claim C9 (amended): in the bracketing phase started from x1 = 0
(y1 = 0), x2 = 2, x2 is repeatedly doubled - carrying the previous (x2, y2)
into (x1, y1) - until F(x2) >= p, so at loop exit x2 is a power of two with
p <= y2 = F(x2), and either no doubling happened (bracket still
((0,0),(2,F 2))) or x2 = 2*x1 with y1 = F(x1) < p; the
quadratic-interpolation seed (x3, y3) is set to the POST-loop point
(x2, y2) - the first tested point with F(x2) >= p - not to the pre-doubling
point. -/
theorem C9_bracket_seed_amended (F : ℚ → ℚ) (p : ℚ) (fuel n : ℕ) (st : BrState)
    (hbr : bracketAux F p fuel 0 0 2 (F 2) 1 = some (st, n)) :
    st.x3 = st.x2 ∧ st.y3 = st.y2 ∧ p ≤ st.y2 ∧ st.y2 = F st.x2 ∧
      ((st.x1 = 0 ∧ st.y1 = 0 ∧ st.x2 = 2) ∨
        (st.x2 = 2 * st.x1 ∧ st.y1 = F st.x1 ∧ st.y1 < p)) ∧
      ∃ j : ℕ, st.x2 = 2 ^ (j + 1) :=
  bracket_doubling F p fuel 0 0 2 (F 2) 1 n st rfl (Or.inl ⟨rfl, rfl, rfl⟩)
    ⟨0, by norm_num⟩ hbr

/-- Witness for C9_bracket_seed_amended on the run F(x) = x/8, p = 3/10. -/
theorem C9_bracket_seed_witness :
    stC9.x3 = stC9.x2 ∧ stC9.y3 = stC9.y2 ∧ (3 / 10 : ℚ) ≤ stC9.y2 ∧ stC9.y2 = F5 stC9.x2 ∧
      ((stC9.x1 = 0 ∧ stC9.y1 = 0 ∧ stC9.x2 = 2) ∨
        (stC9.x2 = 2 * stC9.x1 ∧ stC9.y1 = F5 stC9.x1 ∧ stC9.y1 < 3 / 10)) ∧
      ∃ j : ℕ, stC9.x2 = 2 ^ (j + 1) :=
  C9_bracket_seed_amended F5 (3 / 10) 10 2 stC9 (by norm_num [bracketAux, F5, stC9])

/-- Counterexample to claim C9 as stated: on the run F(x) = x/8, p = 3/10
the bracketing loop doubles x2 once (from 2 to 4) and exits in the state
stC9 with (x1, y1) = (2, F(2)), the pre-doubling bracket point (F(2) < p
forced the doubling); the seed is x3 = 4 = x2, not the pre-doubling point 2,
so the seed (x3, y3) does not equal the point held before the final
doubling. -/
theorem C9_bracket_seed_counterexample :
    bracketAux F5 (3 / 10) 10 0 0 2 (F5 2) 1 = some (stC9, 2) ∧
    stC9.x1 = 2 ∧ stC9.y1 = F5 2 ∧ F5 2 < 3 / 10 ∧ stC9.x3 ≠ stC9.x1 :=
  ⟨by norm_num [bracketAux, F5, stC9], by norm_num [stC9], by norm_num [stC9, F5],
   by norm_num [F5], by norm_num [stC9]⟩
